/-
Verification of the OpenGraph metadata extraction pipeline
(og-extractor / add_vibe_article, main.go).

The Go source is shallowly embedded: each Go helper becomes a Lean
function over `String` / `List Char`, pure and executable.  Strings are
modelled as lists of unicode characters; the Go code only searches for
ASCII delimiters, for which byte positions and character positions in
valid UTF-8 coincide.
-/
import Mathlib

set_option maxRecDepth 10000

namespace OGX

/-- The `OGMetadata` struct of main.go.  Go strings start as `""`
(the zero value); `publishDate = ""` models the unset/omitted field. -/
structure OGMetadata where
  url : String
  title : String
  description : String
  image : String
  slug : String
  publishDate : String
  source : String
  deriving DecidableEq, Repr

/-- The zero value of `OGMetadata`, as produced by `OGMetadata{}` in Go. -/
def emptyMetadata : OGMetadata :=
  { url := "", title := "", description := "", image := "", slug := ""
    publishDate := "", source := "" }

/-! ### Slug extraction (`extractSlug`, main.go lines 159-197) -/

/-- `strings.Index(url, "://")`: the remainder after the first occurrence
of `"://"`, or `none` when absent. -/
def findScheme : List Char → Option (List Char)
  | ':' :: '/' :: '/' :: rest => some rest
  | _ :: cs => findScheme cs
  | [] => none

/-- The protocol-stripping step: `cleanURL = cleanURL[idx+3:]` when
`"://"` occurs, identity otherwise. -/
def dropScheme (url : List Char) : List Char :=
  match findScheme url with
  | some rest => rest
  | none => url

/-- Truncation at the first occurrence of `c`
(`cleanURL = cleanURL[:strings.Index(cleanURL, c)]` when present). -/
def cutAt (c : Char) (cs : List Char) : List Char :=
  cs.takeWhile (fun x => x != c)

/-- `strings.TrimSuffix(cleanURL, "/")`: removes one trailing slash. -/
def trimTrailingSlash (cs : List Char) : List Char :=
  if cs.getLast? = some '/' then cs.dropLast else cs

/-- The cleaned URL text of `extractSlug`: scheme stripped, then cut at
the first `?`, then at the first `#`, then one trailing `/` removed. -/
def cleanedURL (url : String) : List Char :=
  trimTrailingSlash (cutAt '#' (cutAt '?' (dropScheme url.data)))

/-- `strings.Split` on a single separator character: always returns at
least one (possibly empty) segment. -/
def splitOnChar (sep : Char) : List Char → List (List Char)
  | [] => [[]]
  | c :: cs =>
    if c = sep then [] :: splitOnChar sep cs
    else
      match splitOnChar sep cs with
      | seg :: rest => (c :: seg) :: rest
      | [] => [[c]]

/-- The domain fallback of `extractSlug`: split the cleaned text on `.`
and return the first part (`domainParts[0]`), else `""`. -/
def domainFallback (clean : List Char) : String :=
  match (splitOnChar '.' clean).head? with
  | some d => String.mk d
  | none => ""

/-- The segment-selection logic of `extractSlug` over the slash-split
parts: return the last part when non-empty; otherwise scan backwards
from index `len-2` for the first non-empty part; otherwise fall back to
the domain split. -/
def slugFromParts (clean : List Char) (parts : List (List Char)) : String :=
  match parts.getLast? with
  | some lastPart =>
    if lastPart ≠ [] then String.mk lastPart
    else
      match parts.dropLast.reverse.find? (fun seg => !seg.isEmpty) with
      | some seg => String.mk seg
      | none => domainFallback clean
  | none => domainFallback clean

/-- `extractSlug` (main.go lines 159-197). -/
def extractSlug (url : String) : String :=
  let clean := cleanedURL url
  slugFromParts clean (splitOnChar '/' clean)

/-! ### Date validation (`validateDate`, main.go lines 296-299)

`validateDate` delegates to Go's `time.Parse("2006-01-02", s)`, which
accepts exactly a four-digit year, `-`, two-digit month, `-`, two-digit
day, consuming the whole string, with month in 1..12 and day in
1..(days of that month, leap years included). -/

/-- ASCII digit test (`\d` in Go's RE2 is `[0-9]`). -/
def isDigitChar (c : Char) : Bool := '0' ≤ c && c ≤ '9'

/-- Decimal value of a digit string. -/
def toNum (ds : List Char) : Nat :=
  ds.foldl (fun a c => a * 10 + (c.toNat - '0'.toNat)) 0

/-- Gregorian leap-year rule used by Go's `time` package. -/
def isLeapYear (y : Nat) : Bool :=
  y % 4 == 0 && (y % 100 != 0 || y % 400 == 0)

/-- Number of days of month `m` in year `y` (Go `daysIn`). -/
def daysIn (m y : Nat) : Nat :=
  if m = 2 then (if isLeapYear y then 29 else 28)
  else if m = 4 ∨ m = 6 ∨ m = 9 ∨ m = 11 then 30
  else 31

/-- `validateDate` (main.go lines 296-299): whether
`time.Parse("2006-01-02", dateStr)` succeeds. -/
def validateDate (dateStr : String) : Bool :=
  match dateStr.data with
  | [y1, y2, y3, y4, '-', m1, m2, '-', d1, d2] =>
    if ([y1, y2, y3, y4, m1, m2, d1, d2].all isDigitChar) then
      let y := toNum [y1, y2, y3, y4]
      let m := toNum [m1, m2]
      let d := toNum [d1, d2]
      1 ≤ m && m ≤ 12 && 1 ≤ d && d ≤ daysIn m y
    else false
  | _ => false

/-! ### URL date extraction (`extractDateFromURL`, main.go lines 231-293)

Each of the four RE2 patterns is anchored nowhere, built from literal
characters and exact-width digit classes, hence deterministic: the
leftmost match is the first position at which the fixed-shape match
succeeds.  `FindStringSubmatch` is modelled by a left-to-right scan with
a per-position shape matcher. -/

/-- The `example` tag of the pattern table, used as an enum for the
group-reassembly branching. -/
inductive PatternKind where
  | ymdSlash
  | ymdDash
  | dmyDash
  | ymdCompact
  deriving DecidableEq, Repr

/-- The fixed pattern priority list of `extractDateFromURL`. -/
def urlPatterns : List PatternKind :=
  [PatternKind.ymdSlash, PatternKind.ymdDash, PatternKind.dmyDash,
   PatternKind.ymdCompact]

/-- Read exactly `n` ASCII digits from the front of the list. -/
def takeDigits : Nat → List Char → Option (List Char × List Char)
  | 0, cs => some ([], cs)
  | n + 1, c :: cs =>
    if isDigitChar c then
      (takeDigits n cs).map (fun p => (c :: p.1, p.2))
    else none
  | _ + 1, [] => none

/-- Match `/(\d{4})/(\d{2})/(\d{2})/` at the head of the list. -/
def matchYmdSlashAt (cs : List Char) : Option (List Char × List Char × List Char) :=
  match cs with
  | '/' :: r0 =>
    (takeDigits 4 r0).bind fun (y, r1) =>
    match r1 with
    | '/' :: r2 =>
      (takeDigits 2 r2).bind fun (m, r3) =>
      match r3 with
      | '/' :: r4 =>
        (takeDigits 2 r4).bind fun (d, r5) =>
        match r5 with
        | '/' :: _ => some (y, m, d)
        | _ => none
      | _ => none
    | _ => none
  | _ => none

/-- Match `/(\d{4})-(\d{2})-(\d{2})` at the head of the list. -/
def matchYmdDashAt (cs : List Char) : Option (List Char × List Char × List Char) :=
  match cs with
  | '/' :: r0 =>
    (takeDigits 4 r0).bind fun (y, r1) =>
    match r1 with
    | '-' :: r2 =>
      (takeDigits 2 r2).bind fun (m, r3) =>
      match r3 with
      | '-' :: r4 =>
        (takeDigits 2 r4).bind fun (d, _) => some (y, m, d)
      | _ => none
    | _ => none
  | _ => none

/-- Match `/(\d{2})-(\d{2})-(\d{4})` at the head of the list
(groups in source order: day, month, year). -/
def matchDmyDashAt (cs : List Char) : Option (List Char × List Char × List Char) :=
  match cs with
  | '/' :: r0 =>
    (takeDigits 2 r0).bind fun (d, r1) =>
    match r1 with
    | '-' :: r2 =>
      (takeDigits 2 r2).bind fun (m, r3) =>
      match r3 with
      | '-' :: r4 =>
        (takeDigits 4 r4).bind fun (y, _) => some (d, m, y)
      | _ => none
    | _ => none
  | _ => none

/-- Match `/(\d{4})(\d{2})(\d{2})` at the head of the list. -/
def matchYmdCompactAt (cs : List Char) : Option (List Char × List Char × List Char) :=
  match cs with
  | '/' :: r0 =>
    (takeDigits 4 r0).bind fun (y, r1) =>
    (takeDigits 2 r1).bind fun (m, r2) =>
    (takeDigits 2 r2).bind fun (d, _) => some (y, m, d)
  | _ => none

/-- Leftmost match: try the shape matcher at every position, left to
right (RE2's leftmost semantics for these deterministic patterns). -/
def findFirstMatch (p : List Char → Option (List Char × List Char × List Char)) :
    List Char → Option (List Char × List Char × List Char)
  | [] => none
  | c :: cs =>
    match p (c :: cs) with
    | some g => some g
    | none => findFirstMatch p cs

/-- `pattern.regex.FindStringSubmatch(urlStr)` for each table entry. -/
def matchPattern (k : PatternKind) (cs : List Char) :
    Option (List Char × List Char × List Char) :=
  match k with
  | PatternKind.ymdSlash => findFirstMatch matchYmdSlashAt cs
  | PatternKind.ymdDash => findFirstMatch matchYmdDashAt cs
  | PatternKind.dmyDash => findFirstMatch matchDmyDashAt cs
  | PatternKind.ymdCompact => findFirstMatch matchYmdCompactAt cs

/-- Candidate reassembly `fmt.Sprintf("%s-%s-%s", ...)`: groups in order
for the first, second and fourth patterns; reversed
(`matches[3], matches[2], matches[1]`) for the DD-MM-YYYY pattern. -/
def assembleDate (k : PatternKind) (g : List Char × List Char × List Char) : String :=
  match k with
  | PatternKind.dmyDash => String.mk (g.2.2 ++ '-' :: g.2.1 ++ '-' :: g.1)
  | _ => String.mk (g.1 ++ '-' :: g.2.1 ++ '-' :: g.2.2)

/-- One iteration of the pattern loop: first match of the pattern,
reassembled and calendar-validated; an invalid candidate yields `none`
(that pattern contributes nothing). -/
def tryPattern (k : PatternKind) (cs : List Char) : Option String :=
  match matchPattern k cs with
  | some g =>
    let dateStr := assembleDate k g
    if validateDate dateStr then some dateStr else none
  | none => none

/-- The pattern loop of `extractDateFromURL`: first pattern (in priority
order) with a calendar-valid first match wins; otherwise `""`. -/
def datePatternLoop : List PatternKind → List Char → String
  | [], _ => ""
  | k :: rest, cs =>
    match tryPattern k cs with
    | some s => s
    | none => datePatternLoop rest cs

/-- `extractDateFromURL` (main.go lines 231-293). -/
def extractDateFromURL (urlStr : String) : String :=
  datePatternLoop urlPatterns urlStr.data

/-! ### JSON values and `encoding/json` parsing

`extractDateFromJSON` unmarshals the script text into a
`map[string]interface{}`.  JSON values are modelled by `JVal`; numbers
keep their raw lexeme (the Go code never inspects numeric values, only
whether a value is a string).  The parser below follows the JSON
grammar accepted by `encoding/json`: optional whitespace around tokens,
strict number syntax, escape sequences in strings, and no data after
the top-level value.  `\uXXXX` escapes are decoded to the code point
when valid (lone surrogates, which Go replaces, are mapped to `'\0'` —
never exercised here). -/

inductive JVal where
  | jnull
  | jbool (b : Bool)
  | jnum (raw : String)
  | jstr (s : String)
  | jarr (elems : List JVal)
  | jobj (fields : List (String × JVal))

/-- JSON whitespace. -/
def jsonWs (c : Char) : Bool :=
  c == ' ' || c == '\t' || c == '\n' || c == '\r'

/-- Skip JSON whitespace. -/
def skipWs (cs : List Char) : List Char :=
  cs.dropWhile jsonWs

/-- Single-character escape sequences of JSON strings. -/
def escChar (c : Char) : Option Char :=
  match c with
  | '"' => some '"'
  | '\\' => some '\\'
  | '/' => some '/'
  | 'b' => some (Char.ofNat 8)
  | 'f' => some (Char.ofNat 12)
  | 'n' => some '\n'
  | 'r' => some '\r'
  | 't' => some '\t'
  | _ => none

/-- Hex digit value. -/
def hexVal (c : Char) : Option Nat :=
  if '0' ≤ c ∧ c ≤ '9' then some (c.toNat - '0'.toNat)
  else if 'a' ≤ c ∧ c ≤ 'f' then some (c.toNat - 'a'.toNat + 10)
  else if 'A' ≤ c ∧ c ≤ 'F' then some (c.toNat - 'A'.toNat + 10)
  else none

/-- Body of a JSON string after the opening quote: decoded characters
plus the remaining input after the closing quote.  Unescaped control
characters are rejected, as in `encoding/json`. -/
def parseStringBody : Nat → List Char → Option (List Char × List Char)
  | 0, _ => none
  | _ + 1, [] => none
  | fuel + 1, c :: rest =>
    if c == '"' then some ([], rest)
    else if c == '\\' then
      match rest with
      | [] => none
      | e :: rest2 =>
        match escChar e with
        | some ec =>
          (parseStringBody fuel rest2).map (fun p => (ec :: p.1, p.2))
        | none =>
          if e == 'u' then
            match rest2 with
            | h1 :: h2 :: h3 :: h4 :: rest3 =>
              match hexVal h1, hexVal h2, hexVal h3, hexVal h4 with
              | some a, some b, some c2, some d =>
                (parseStringBody fuel rest3).map
                  (fun p => (Char.ofNat (a * 4096 + b * 256 + c2 * 16 + d) :: p.1, p.2))
              | _, _, _, _ => none
            | _ => none
          else none
    else if c.toNat < 32 then none
    else (parseStringBody fuel rest).map (fun p => (c :: p.1, p.2))

/-- Longest digit prefix. -/
def spanDigits (cs : List Char) : List Char × List Char :=
  (cs.takeWhile isDigitChar, cs.dropWhile isDigitChar)

/-- JSON number lexeme: `-? (0 | [1-9][0-9]*) (\.[0-9]+)? ([eE][+-]?[0-9]+)?`. -/
def parseNumber (cs : List Char) : Option (List Char × List Char) :=
  let (neg, cs1) :=
    match cs with
    | '-' :: r => (['-'], r)
    | _ => (([] : List Char), cs)
  match cs1 with
  | [] => none
  | c :: r =>
    if c == '0' ∨ ¬ (isDigitChar c) then
      if c == '0' then
        let (intPart, rest0) := ([c], r)
        (parseFrac rest0).bind fun (fracPart, rest1) =>
        (parseExp rest1).map fun (expPart, rest2) =>
          (neg ++ intPart ++ fracPart ++ expPart, rest2)
      else none
    else
      let (ds, rest0) := spanDigits r
      (parseFrac rest0).bind fun (fracPart, rest1) =>
      (parseExp rest1).map fun (expPart, rest2) =>
        (neg ++ c :: ds ++ fracPart ++ expPart, rest2)
where
  parseFrac (cs : List Char) : Option (List Char × List Char) :=
    match cs with
    | '.' :: r =>
      match spanDigits r with
      | ([], _) => none
      | (ds, rest) => some ('.' :: ds, rest)
    | _ => some ([], cs)
  parseExp (cs : List Char) : Option (List Char × List Char) :=
    match cs with
    | 'e' :: r => parseExpSign 'e' r
    | 'E' :: r => parseExpSign 'E' r
    | _ => some ([], cs)
  parseExpSign (e : Char) (cs : List Char) : Option (List Char × List Char) :=
    let (sgn, r) :=
      match cs with
      | '+' :: r => (['+'], r)
      | '-' :: r => (['-'], r)
      | _ => (([] : List Char), cs)
    match spanDigits r with
    | ([], _) => none
    | (ds, rest) => some (e :: sgn ++ ds, rest)

mutual

/-- A JSON value with leading whitespace, returning the remaining input. -/
def parseValue : Nat → List Char → Option (JVal × List Char)
  | 0, _ => none
  | fuel + 1, cs =>
    match skipWs cs with
    | [] => none
    | '"' :: rest =>
      (parseStringBody fuel rest).map (fun p => (JVal.jstr (String.mk p.1), p.2))
    | '{' :: rest => parseObjBody fuel rest
    | '[' :: rest => parseArrBody fuel rest
    | 't' :: 'r' :: 'u' :: 'e' :: rest => some (JVal.jbool true, rest)
    | 'f' :: 'a' :: 'l' :: 's' :: 'e' :: rest => some (JVal.jbool false, rest)
    | 'n' :: 'u' :: 'l' :: 'l' :: rest => some (JVal.jnull, rest)
    | other =>
      (parseNumber other).map (fun p => (JVal.jnum (String.mk p.1), p.2))

/-- Object body after `{`: either an immediate `}` or a member list. -/
def parseObjBody : Nat → List Char → Option (JVal × List Char)
  | 0, _ => none
  | fuel + 1, cs =>
    match skipWs cs with
    | '}' :: rest => some (JVal.jobj [], rest)
    | other =>
      (parseMembers fuel other).map (fun p => (JVal.jobj p.1, p.2))

/-- Non-empty member list: `ws "key" ws : value ws (, members | })`. -/
def parseMembers : Nat → List Char → Option (List (String × JVal) × List Char)
  | 0, _ => none
  | fuel + 1, cs =>
    match skipWs cs with
    | '"' :: rest =>
      (parseStringBody fuel rest).bind fun (k, r1) =>
      match skipWs r1 with
      | ':' :: r2 =>
        (parseValue fuel r2).bind fun (v, r3) =>
        match skipWs r3 with
        | ',' :: r4 =>
          (parseMembers fuel r4).map
            (fun p => ((String.mk k, v) :: p.1, p.2))
        | '}' :: r4 => some ([(String.mk k, v)], r4)
        | _ => none
      | _ => none
    | _ => none

/-- Array body after `[`: either an immediate `]` or an element list. -/
def parseArrBody : Nat → List Char → Option (JVal × List Char)
  | 0, _ => none
  | fuel + 1, cs =>
    match skipWs cs with
    | ']' :: rest => some (JVal.jarr [], rest)
    | other =>
      (parseElems fuel other).map (fun p => (JVal.jarr p.1, p.2))

/-- Non-empty element list: `value ws (, elems | ])`. -/
def parseElems : Nat → List Char → Option (List JVal × List Char)
  | 0, _ => none
  | fuel + 1, cs =>
    (parseValue fuel cs).bind fun (v, r1) =>
    match skipWs r1 with
    | ',' :: r2 => (parseElems fuel r2).map (fun p => (v :: p.1, p.2))
    | ']' :: r2 => some ([v], r2)
    | _ => none

end

/-- Parse a complete JSON text: one value, nothing but whitespace after.
The fuel bound exceeds any possible recursion depth (each descent
consumes at least one character), so fuel exhaustion never rejects a
valid text. -/
def parseJSON (s : String) : Option JVal :=
  match parseValue (4 * s.length + 16) s.data with
  | some (v, rest) => if (skipWs rest).isEmpty then some v else none
  | none => none

/-- `json.Unmarshal([]byte(text), &map[string]interface{})`: succeeds on
a JSON object (its field list, later duplicates shadowing earlier ones
at lookup) and on `null` (which leaves the map `nil`, i.e. empty);
errors on everything else. -/
def unmarshalObject (s : String) : Option (List (String × JVal)) :=
  match parseJSON s with
  | some (JVal.jobj fs) => some fs
  | some JVal.jnull => some []
  | _ => none

/-- Go map lookup over the parsed field list: the last binding of a
duplicated key wins, as in `encoding/json` object decoding. -/
def jlookup (fields : List (String × JVal)) (key : String) : Option JVal :=
  fields.foldl (fun acc kv => if kv.1 = key then some kv.2 else acc) none

/-! ### Structured-data date extraction
(`extractDateFromJSON`, main.go lines 200-228) -/

/-- The fixed date field list of `extractDateFromJSON`. -/
def dateFields : List String :=
  ["datePublished", "dateCreated", "publishedTime", "dateModified", "pubDate"]

/-- The field-scanning loop: for each field in order, if the value is a
string and `publishDate` is unset, assign and return (`some`); when the
loop falls through, `none`. -/
def scanLoop (fs : List String) (fields : List (String × JVal))
    (md : OGMetadata) : Option OGMetadata :=
  match fs with
  | [] => none
  | f :: rest =>
    match jlookup fields f with
    | some (JVal.jstr s) =>
      if md.publishDate = "" then some { md with publishDate := s }
      else scanLoop rest fields md
    | _ => scanLoop rest fields md

/-- `data["@type"] == "Article" || data["@type"] == "NewsArticle"`:
interface equality with a string literal holds only for string-typed
values. -/
def typeIsArticle (fields : List (String × JVal)) : Bool :=
  match jlookup fields "@type" with
  | some (JVal.jstr s) => s = "Article" || s = "NewsArticle"
  | _ => false

/-- `extractDateFromJSON` (main.go lines 200-228): unmarshal; on error
return the record unchanged; otherwise run the field scan, and — when
it fell through and `@type` is `Article`/`NewsArticle` — run the same
scan once more. -/
def extractDateFromJSON (jsonContent : String) (md : OGMetadata) : OGMetadata :=
  match unmarshalObject jsonContent with
  | none => md
  | some fields =>
    match scanLoop dateFields fields md with
    | some md' => md'
    | none =>
      if typeIsArticle fields then
        match scanLoop dateFields fields md with
        | some md' => md'
        | none => md
      else md

/-- The variant of `extractDateFromJSON` with the `@type` conditional
re-scan removed, as described by the spec's redundancy remark. -/
def extractDateFromJSONNoType (jsonContent : String) (md : OGMetadata) : OGMetadata :=
  match unmarshalObject jsonContent with
  | none => md
  | some fields =>
    match scanLoop dateFields fields md with
    | some md' => md'
    | none => md

/-! ### The parsed document tree and the markup walk
(`extractMetadata` closure in `extractOGMetadata`, main.go lines 95-148)

`golang.org/x/net/html` nodes carry a type, a data string (tag name for
elements, text for text nodes), attributes, and children.  The child
list is a mutually inductive list so that the walk is structurally
recursive and kernel-computable. -/

inductive NodeType where
  | errorNode
  | textNode
  | documentNode
  | elementNode
  | commentNode
  | doctypeNode
  deriving DecidableEq, Repr

mutual

inductive HNode where
  | node (ntype : NodeType) (data : String)
      (attrs : List (String × String)) (children : HNodeList)

inductive HNodeList where
  | nil
  | cons (hd : HNode) (tl : HNodeList)

end

/-- The `Data` field of a node. -/
def HNode.data : HNode → String
  | HNode.node _ d _ _ => d

/-- The first child (`n.FirstChild`), if any. -/
def HNodeList.head? : HNodeList → Option HNode
  | HNodeList.nil => none
  | HNodeList.cons h _ => some h

/-- Concatenation of sibling lists. -/
def HNodeList.append : HNodeList → HNodeList → HNodeList
  | HNodeList.nil, ys => ys
  | HNodeList.cons x xs, ys => HNodeList.cons x (HNodeList.append xs ys)

/-- The Go attribute loop `for _, attr := range n.Attr { if p(attr.Key)
{ v = attr.Val } }`: value of the last attribute whose key satisfies
`p`, defaulting to `""`. -/
def lastAttrVal (p : String → Bool) (attrs : List (String × String)) : String :=
  attrs.foldl (fun acc kv => if p kv.1 then kv.2 else acc) ""

/-- Whether a `<script>` element carries a JSON media type
(`type` equals `application/ld+json` or `application/json`). -/
def isJSONScript (attrs : List (String × String)) : Bool :=
  attrs.any (fun kv =>
    kv.1 == "type" && (kv.2 == "application/ld+json" || kv.2 == "application/json"))

/-- The `switch property` of the meta-tag handler (main.go lines
108-123): the five OpenGraph keys assign unconditionally; the six date
keys assign only while `publishDate` is unset. -/
def applyMeta (property content : String) (md : OGMetadata) : OGMetadata :=
  if property = "og:url" then { md with url := content }
  else if property = "og:title" then { md with title := content }
  else if property = "og:description" then { md with description := content }
  else if property = "og:image" then { md with image := content }
  else if property = "og:site_name" then { md with source := content }
  else if property = "article:published_time" ∨ property = "datePublished" ∨
      property = "pubdate" ∨ property = "publishdate" ∨
      property = "DC.date.issued" ∨ property = "article:modified_time" then
    (if md.publishDate = "" then { md with publishDate := content } else md)
  else md

/-- The meta-tag handler of the walk (main.go lines 97-124): on a
`<meta>` element, resolve `property`/`name` and `content` and apply the
switch. -/
def metaStep (t : NodeType) (d : String) (attrs : List (String × String))
    (md : OGMetadata) : OGMetadata :=
  if t = NodeType.elementNode ∧ d = "meta" then
    applyMeta (lastAttrVal (fun k => k == "property" || k == "name") attrs)
      (lastAttrVal (fun k => k == "content") attrs) md
  else md

/-- The JSON-script handler of the walk (main.go lines 127-140): on a
`<script>` with a JSON media type and a first child, feed that child's
text to `extractDateFromJSON`. -/
def scriptStep (t : NodeType) (d : String) (attrs : List (String × String))
    (children : HNodeList) (md : OGMetadata) : OGMetadata :=
  if t = NodeType.elementNode ∧ d = "script" ∧ isJSONScript attrs then
    match children.head? with
    | some c => extractDateFromJSON c.data md
    | none => md
  else md

/-- The per-node work of the walk: the meta-tag handler, then the
JSON-script handler (the two sequential `if` blocks of the closure). -/
def processNode (t : NodeType) (d : String) (attrs : List (String × String))
    (children : HNodeList) (md : OGMetadata) : OGMetadata :=
  scriptStep t d attrs children (metaStep t d attrs md)

mutual

/-- The recursive `extractMetadata` closure: process the node, then
recurse over the children in document order. -/
def walk : HNode → OGMetadata → OGMetadata
  | HNode.node t d a cs, md => walkList cs (processNode t d a cs md)

/-- The sibling loop `for c := n.FirstChild; c != nil; c = c.NextSibling`. -/
def walkList : HNodeList → OGMetadata → OGMetadata
  | HNodeList.nil, md => md
  | HNodeList.cons c cs, md => walkList cs (walk c md)

end

/-- A leaf `<meta property=... content=...>` element. -/
def metaLeaf (key content : String) : HNode :=
  HNode.node NodeType.elementNode "meta"
    [("property", key), ("content", content)] HNodeList.nil

/-! ### The orchestrator (`extractOGMetadata`, main.go lines 71-156)

The pure core: HTTP fetch and HTML parsing are the external
collaborators; the orchestrator receives the URL and the parsed tree. -/

/-- The record state right after `metadata.Slug = extractSlug(url)`. -/
def initRecord (url : String) : OGMetadata :=
  { emptyMetadata with slug := extractSlug url }

/-- `extractOGMetadata` (main.go lines 71-156), on an already-fetched,
already-parsed document: derive the slug, walk the markup, and fall
back to the URL date pattern scan when `publishDate` is still unset. -/
def extractOGMetadata (url : String) (doc : HNode) : OGMetadata :=
  let md1 := walk doc (initRecord url)
  if md1.publishDate = "" then
    { md1 with publishDate := extractDateFromURL url }
  else md1

/-! ### Spec-side characterisations (used to state the claims) -/

/-- Spec-side: the last non-empty `/`-separated segment, when one
exists. -/
def lastNonEmptySegment (segs : List (List Char)) : Option (List Char) :=
  (segs.filter (fun s => !s.isEmpty)).getLast?

/-- Spec-side: the value of the first field of `fs` (in list order)
that is bound to a string in the parsed object. -/
def firstStringValue : List String → List (String × JVal) → Option String
  | [], _ => none
  | f :: rest, fields =>
    match jlookup fields f with
    | some (JVal.jstr s) => some s
    | _ => firstStringValue rest fields

/-- A `<script type="application/ld+json">` element whose text child
holds the given JSON source. -/
def ldJsonScript (text : String) : HNode :=
  HNode.node NodeType.elementNode "script" [("type", "application/ld+json")]
    (HNodeList.cons (HNode.node NodeType.textNode text [] HNodeList.nil)
      HNodeList.nil)

/-- A document carrying a date meta tag first and a JSON-LD block with
a different date second (the precedence scenario of the spec). -/
def docMetaThenJson : HNode :=
  HNode.node NodeType.documentNode "" []
    (HNodeList.cons (metaLeaf "article:published_time" "2021-01-01")
      (HNodeList.cons (ldJsonScript "\x7b\"datePublished\":\"2022-02-02\"\x7d")
        HNodeList.nil))

/-- The end-to-end example document of the spec: `og:title="T"` and
`og:url="https://a.com/p"`, no date anywhere. -/
def docTitleUrl : HNode :=
  HNode.node NodeType.documentNode "" []
    (HNodeList.cons (metaLeaf "og:title" "T")
      (HNodeList.cons (metaLeaf "og:url" "https://a.com/p") HNodeList.nil))

/-! ## Helper lemmas -/

/-- `find?` is the head of the `filter`. -/
theorem find?_eq_head?_filter {α : Type} (p : α → Bool) (l : List α) :
    l.find? p = (l.filter p).head? := by
  induction l with
  | nil => rfl
  | cons x xs ih =>
    simp only [List.find?, List.filter]
    cases h : p x with
    | true => rfl
    | false => exact ih

/-- The last filtered element is the first match of the reversal. -/
theorem getLast?_filter_eq_find?_reverse {α : Type} (p : α → Bool) (l : List α) :
    (l.filter p).getLast? = l.reverse.find? p := by
  rw [find?_eq_head?_filter, List.filter_reverse, List.head?_reverse]

/-- When the split parts contain a non-empty segment, the slug logic
returns the last such segment. -/
theorem slugFromParts_lastNonEmpty (clean : List Char) (parts : List (List Char))
    (seg : List Char) (h : lastNonEmptySegment parts = some seg) :
    slugFromParts clean parts = String.mk seg := by
  unfold lastNonEmptySegment at h
  rw [getLast?_filter_eq_find?_reverse] at h
  induction parts using List.reverseRecOn with
  | nil =>
    rw [List.reverse_nil] at h
    exact Option.noConfusion h
  | append_singleton as a _ =>
    rw [List.reverse_append, List.reverse_singleton, List.singleton_append] at h
    simp only [slugFromParts, List.getLast?_concat, List.dropLast_concat]
    by_cases ha : a = []
    · subst ha
      rw [List.find?_cons_of_neg _ (by simp)] at h
      simp only [ne_eq, not_true_eq_false, if_false, h]
    · have hpa : (fun s : List Char => !s.isEmpty) a = true := by
        cases a with
        | nil => exact absurd rfl ha
        | cons x xs => rfl
      have h2 : List.find? (fun s : List Char => !s.isEmpty) (a :: as.reverse) = some a :=
        List.find?_cons_of_pos _ hpa
      rw [h2] at h
      injection h with h3
      subst h3
      simp [ha]

/-- The field scan assigns nothing once `publishDate` is set. -/
theorem scanLoop_of_ne (fs : List String) (fields : List (String × JVal))
    (md : OGMetadata) (h : md.publishDate ≠ "") : scanLoop fs fields md = none := by
  induction fs with
  | nil => rfl
  | cons f rest ih =>
    simp only [scanLoop]
    cases hj : jlookup fields f with
    | none => exact ih
    | some v =>
      cases v with
      | jnull => exact ih
      | jbool b => exact ih
      | jnum r => exact ih
      | jarr es => exact ih
      | jobj fs2 => exact ih
      | jstr s =>
        show (if md.publishDate = "" then some { md with publishDate := s }
              else scanLoop rest fields md) = none
        rw [if_neg h]
        exact ih

/-- On an unset `publishDate`, the field scan yields exactly the first
string-typed date field, verbatim. -/
theorem scanLoop_of_empty (fs : List String) (fields : List (String × JVal))
    (md : OGMetadata) (h : md.publishDate = "") :
    scanLoop fs fields md =
      (firstStringValue fs fields).map (fun v => { md with publishDate := v }) := by
  induction fs with
  | nil => rfl
  | cons f rest ih =>
    simp only [scanLoop, firstStringValue]
    cases hj : jlookup fields f with
    | none => exact ih
    | some v =>
      cases v with
      | jnull => exact ih
      | jbool b => exact ih
      | jnum r => exact ih
      | jarr es => exact ih
      | jobj fs2 => exact ih
      | jstr s =>
        show (if md.publishDate = "" then some { md with publishDate := s }
              else scanLoop rest fields md) = _
        rw [if_pos h]
        rfl

/-- The field scan never touches the slug. -/
theorem scanLoop_slug (fs : List String) (fields : List (String × JVal))
    (md : OGMetadata) : ∀ md', scanLoop fs fields md = some md' → md'.slug = md.slug := by
  induction fs with
  | nil => exact fun md' h => Option.noConfusion h
  | cons f rest ih =>
    intro md' h
    simp only [scanLoop] at h
    cases hj : jlookup fields f with
    | none =>
      rw [hj] at h
      exact ih md' h
    | some v =>
      rw [hj] at h
      cases v with
      | jnull => exact ih md' h
      | jbool b => exact ih md' h
      | jnum r => exact ih md' h
      | jarr es => exact ih md' h
      | jobj fs2 => exact ih md' h
      | jstr s =>
        have h2 : (if md.publishDate = "" then some { md with publishDate := s }
            else scanLoop rest fields md) = some md' := h
        by_cases hpd : md.publishDate = ""
        · rw [if_pos hpd] at h2
          injection h2 with h3
          rw [← h3]
        · rw [if_neg hpd] at h2
          exact ih md' h2

/-- `extractDateFromJSON` is the identity once `publishDate` is set. -/
theorem extractDateFromJSON_of_ne (s : String) (md : OGMetadata)
    (h : md.publishDate ≠ "") : extractDateFromJSON s md = md := by
  unfold extractDateFromJSON
  cases hu : unmarshalObject s with
  | none => simp only
  | some fields =>
    simp only [scanLoop_of_ne _ _ _ h, ite_self]

/-- `extractDateFromJSON` never touches the slug. -/
theorem extractDateFromJSON_slug (s : String) (md : OGMetadata) :
    (extractDateFromJSON s md).slug = md.slug := by
  unfold extractDateFromJSON
  cases hu : unmarshalObject s with
  | none => simp only
  | some fields =>
    cases hs : scanLoop dateFields fields md with
    | some md' => simp only [hs]; exact scanLoop_slug _ _ _ md' hs
    | none => simp only [hs, ite_self]

/-- The meta-tag switch preserves a set `publishDate`. -/
theorem applyMeta_publishDate_of_ne (p c : String) (md : OGMetadata)
    (h : md.publishDate ≠ "") :
    (applyMeta p c md).publishDate = md.publishDate := by
  unfold applyMeta
  split_ifs <;> rfl

/-- The meta-tag switch never touches the slug. -/
theorem applyMeta_slug (p c : String) (md : OGMetadata) :
    (applyMeta p c md).slug = md.slug := by
  unfold applyMeta
  split_ifs <;> rfl

/-- The meta handler preserves a set `publishDate`. -/
theorem metaStep_publishDate_of_ne (t : NodeType) (d : String)
    (attrs : List (String × String)) (md : OGMetadata) (h : md.publishDate ≠ "") :
    (metaStep t d attrs md).publishDate = md.publishDate := by
  unfold metaStep
  split
  · exact applyMeta_publishDate_of_ne _ _ _ h
  · rfl

/-- The meta handler never touches the slug. -/
theorem metaStep_slug (t : NodeType) (d : String)
    (attrs : List (String × String)) (md : OGMetadata) :
    (metaStep t d attrs md).slug = md.slug := by
  unfold metaStep
  split
  · exact applyMeta_slug _ _ _
  · rfl

/-- The script handler preserves a set `publishDate`. -/
theorem scriptStep_publishDate_of_ne (t : NodeType) (d : String)
    (attrs : List (String × String)) (children : HNodeList) (md : OGMetadata)
    (h : md.publishDate ≠ "") :
    (scriptStep t d attrs children md).publishDate = md.publishDate := by
  unfold scriptStep
  split
  · cases children.head? with
    | none => rfl
    | some c =>
      show (extractDateFromJSON c.data md).publishDate = md.publishDate
      rw [extractDateFromJSON_of_ne _ _ h]
  · rfl

/-- The script handler never touches the slug. -/
theorem scriptStep_slug (t : NodeType) (d : String)
    (attrs : List (String × String)) (children : HNodeList) (md : OGMetadata) :
    (scriptStep t d attrs children md).slug = md.slug := by
  unfold scriptStep
  split
  · cases children.head? with
    | none => rfl
    | some c => exact extractDateFromJSON_slug _ _
  · rfl

/-- Per-node processing preserves a set `publishDate`. -/
theorem processNode_publishDate_of_ne (t : NodeType) (d : String)
    (attrs : List (String × String)) (children : HNodeList) (md : OGMetadata)
    (h : md.publishDate ≠ "") :
    (processNode t d attrs children md).publishDate = md.publishDate := by
  unfold processNode
  rw [scriptStep_publishDate_of_ne _ _ _ _ _
    (by rw [metaStep_publishDate_of_ne _ _ _ _ h]; exact h)]
  exact metaStep_publishDate_of_ne _ _ _ _ h

/-- Per-node processing never touches the slug. -/
theorem processNode_slug (t : NodeType) (d : String)
    (attrs : List (String × String)) (children : HNodeList) (md : OGMetadata) :
    (processNode t d attrs children md).slug = md.slug := by
  unfold processNode
  rw [scriptStep_slug, metaStep_slug]

mutual

/-- The whole walk preserves a set `publishDate`. -/
theorem walk_publishDate_of_ne : ∀ (n : HNode) (md : OGMetadata),
    md.publishDate ≠ "" → (walk n md).publishDate = md.publishDate
  | HNode.node t d a cs, md, h => by
    simp only [walk]
    rw [walkList_publishDate_of_ne cs _
      (by rw [processNode_publishDate_of_ne _ _ _ _ _ h]; exact h)]
    exact processNode_publishDate_of_ne _ _ _ _ _ h

/-- The sibling loop preserves a set `publishDate`. -/
theorem walkList_publishDate_of_ne : ∀ (ns : HNodeList) (md : OGMetadata),
    md.publishDate ≠ "" → (walkList ns md).publishDate = md.publishDate
  | HNodeList.nil, _, _ => rfl
  | HNodeList.cons c cs, md, h => by
    simp only [walkList]
    rw [walkList_publishDate_of_ne cs _
      (by rw [walk_publishDate_of_ne c md h]; exact h)]
    exact walk_publishDate_of_ne c md h

end

mutual

/-- The whole walk never touches the slug. -/
theorem walk_slug : ∀ (n : HNode) (md : OGMetadata), (walk n md).slug = md.slug
  | HNode.node t d a cs, md => by
    simp only [walk]
    rw [walkList_slug cs _]
    exact processNode_slug _ _ _ _ _

/-- The sibling loop never touches the slug. -/
theorem walkList_slug : ∀ (ns : HNodeList) (md : OGMetadata),
    (walkList ns md).slug = md.slug
  | HNodeList.nil, _ => rfl
  | HNodeList.cons c cs, md => by
    simp only [walkList]
    rw [walkList_slug cs _]
    exact walk_slug c md

end

/-- List-shaped induction for sibling lists. -/
theorem hnodelist_ind {p : HNodeList → Prop} (h0 : p HNodeList.nil)
    (h1 : ∀ (x : HNode) (xs : HNodeList), p xs → p (HNodeList.cons x xs)) :
    ∀ xs, p xs :=
  @HNodeList.rec (fun _ => True) p (fun _ _ _ _ _ => trivial) h0
    (fun x tl _ htl => h1 x tl htl)

/-- Walking a concatenation walks the two halves in order. -/
theorem walkList_append (xs ys : HNodeList) :
    ∀ md : OGMetadata,
      walkList (HNodeList.append xs ys) md = walkList ys (walkList xs md) := by
  induction xs using hnodelist_ind with
  | h0 => intro md; rfl
  | h1 x xs ih =>
    intro md
    simp only [HNodeList.append, walkList]
    exact ih (walk x md)

/-- Walking a leaf meta element is exactly the meta-tag switch. -/
theorem walk_metaLeaf (k c : String) (md : OGMetadata) :
    walk (metaLeaf k c) md = applyMeta k c md := rfl

/-! ## The claims -/

/-- C1: the claim says `deriveSlug("https://example.com")` returns
`"example"`.  The code returns `"example.com"`: for a bare domain the
whole host is the last non-empty `/`-segment and is returned directly,
so the `.`-split domain fallback the claim describes is never reached.
This theorem evaluates the code at the failing input. -/
theorem C1_bare_domain_slug_eval :
    extractSlug "https://example.com" = "example.com" := by decide

/-- C2: `extractSlug` is total, strips the scheme, truncates at `?` and
`#`, strips one trailing `/`, and returns the last non-empty
`/`-separated segment of the cleaned text whenever one exists; in
particular the two example URLs give `"blog"` and `"how-to-code"`. -/
theorem C2_deriveSlug_spec :
    (∀ (url : String) (seg : List Char),
      lastNonEmptySegment (splitOnChar '/' (cleanedURL url)) = some seg →
      extractSlug url = String.mk seg) ∧
    extractSlug "https://example.com/blog/" = "blog" ∧
    extractSlug "https://example.com/posts/how-to-code?source=x#y" = "how-to-code" := by
  refine ⟨?_, by decide, by decide⟩
  intro url seg h
  show slugFromParts (cleanedURL url) (splitOnChar '/' (cleanedURL url)) = String.mk seg
  exact slugFromParts_lastNonEmpty _ _ _ h

/-- Witness for C2 at a URL with a trailing slash and an empty segment. -/
theorem C2_witness :
    lastNonEmptySegment (splitOnChar '/' (cleanedURL "https://e.com/a//b/")) = some ['b'] ∧
    extractSlug "https://e.com/a//b/" = String.mk ['b'] :=
  ⟨by decide, C2_deriveSlug_spec.1 "https://e.com/a//b/" ['b'] (by decide)⟩

/-- C3: the four URL date patterns are tried in the fixed priority
order, each independently over the whole URL; the first pattern whose
first match is calendar-valid supplies the result, and the three
example URLs all give `"2023-05-15"`. -/
theorem C3_dateFromURL_priority :
    (∀ (url s : String),
      tryPattern PatternKind.ymdSlash url.data = some s → extractDateFromURL url = s) ∧
    (∀ (url s : String),
      tryPattern PatternKind.ymdSlash url.data = none →
      tryPattern PatternKind.ymdDash url.data = some s → extractDateFromURL url = s) ∧
    (∀ (url s : String),
      tryPattern PatternKind.ymdSlash url.data = none →
      tryPattern PatternKind.ymdDash url.data = none →
      tryPattern PatternKind.dmyDash url.data = some s → extractDateFromURL url = s) ∧
    (∀ (url s : String),
      tryPattern PatternKind.ymdSlash url.data = none →
      tryPattern PatternKind.ymdDash url.data = none →
      tryPattern PatternKind.dmyDash url.data = none →
      tryPattern PatternKind.ymdCompact url.data = some s → extractDateFromURL url = s) ∧
    extractDateFromURL "https://x.com/2023/05/15/a" = "2023-05-15" ∧
    extractDateFromURL "https://x.com/article/15-05-2023" = "2023-05-15" ∧
    extractDateFromURL "https://x.com/article/20230515" = "2023-05-15" := by
  refine ⟨?_, ?_, ?_, ?_, by decide, by decide, by decide⟩
  · intro url s h
    simp only [extractDateFromURL, urlPatterns, datePatternLoop, h]
  · intro url s h1 h2
    simp only [extractDateFromURL, urlPatterns, datePatternLoop, h1, h2]
  · intro url s h1 h2 h3
    simp only [extractDateFromURL, urlPatterns, datePatternLoop, h1, h2, h3]
  · intro url s h1 h2 h3 h4
    simp only [extractDateFromURL, urlPatterns, datePatternLoop, h1, h2, h3, h4]

/-- Witness for C3 at the DD-MM-YYYY example. -/
theorem C3_witness :
    tryPattern PatternKind.ymdSlash ("https://x.com/article/15-05-2023" : String).data = none ∧
    tryPattern PatternKind.ymdDash ("https://x.com/article/15-05-2023" : String).data = none ∧
    tryPattern PatternKind.dmyDash ("https://x.com/article/15-05-2023" : String).data =
      some "2023-05-15" ∧
    extractDateFromURL "https://x.com/article/15-05-2023" = "2023-05-15" :=
  ⟨by decide, by decide, by decide,
    C3_dateFromURL_priority.2.2.1 "https://x.com/article/15-05-2023" "2023-05-15"
      (by decide) (by decide) (by decide)⟩

/-- C4: a syntactic match whose reassembled candidate fails calendar
validation makes that pattern contribute nothing, and when every
pattern contributes nothing `extractDateFromURL` returns `""`; in
particular the month-13/day-40 example returns `""`. -/
theorem C4_invalid_match_rejected :
    (∀ (k : PatternKind) (cs : List Char) (g : List Char × List Char × List Char),
      matchPattern k cs = some g → validateDate (assembleDate k g) = false →
      tryPattern k cs = none) ∧
    (∀ url : String,
      tryPattern PatternKind.ymdSlash url.data = none →
      tryPattern PatternKind.ymdDash url.data = none →
      tryPattern PatternKind.dmyDash url.data = none →
      tryPattern PatternKind.ymdCompact url.data = none →
      extractDateFromURL url = "") ∧
    extractDateFromURL "https://x.com/2023/13/40/a" = "" := by
  refine ⟨?_, ?_, by decide⟩
  · intro k cs g hm hv
    unfold tryPattern
    rw [hm]
    simp [hv]
  · intro url h1 h2 h3 h4
    simp only [extractDateFromURL, urlPatterns, datePatternLoop, h1, h2, h3, h4]

/-- Witness for C4 at the invalid-calendar example. -/
theorem C4_witness :
    matchPattern PatternKind.ymdSlash ("https://x.com/2023/13/40/a" : String).data =
      some (['2', '0', '2', '3'], ['1', '3'], ['4', '0']) ∧
    validateDate (assembleDate PatternKind.ymdSlash
      (['2', '0', '2', '3'], ['1', '3'], ['4', '0'])) = false ∧
    tryPattern PatternKind.ymdSlash ("https://x.com/2023/13/40/a" : String).data = none ∧
    extractDateFromURL "https://x.com/2023/13/40/a" = "" :=
  ⟨by decide, by decide,
    C4_invalid_match_rejected.1 PatternKind.ymdSlash
      ("https://x.com/2023/13/40/a" : String).data
      (['2', '0', '2', '3'], ['1', '3'], ['4', '0']) (by decide) (by decide),
    C4_invalid_match_rejected.2.1 "https://x.com/2023/13/40/a"
      (by decide) (by decide) (by decide) (by decide)⟩

/-- C5: over the whole pre-order walk — meta date keys and JSON-LD
blocks alike — a set `publishDate` is never overwritten, so the first
date in document order wins; and in the concrete document with a date
meta tag before a JSON-LD date, the meta tag's value is kept. -/
theorem C5_publishDate_first_wins :
    (∀ (n : HNode) (md : OGMetadata), md.publishDate ≠ "" →
      (walk n md).publishDate = md.publishDate) ∧
    walk docMetaThenJson emptyMetadata =
      { emptyMetadata with publishDate := "2021-01-01" } :=
  ⟨fun n md h => walk_publishDate_of_ne n md h, by decide⟩

/-- Witness for C5: a later date meta tag cannot change a set date. -/
theorem C5_witness :
    ({ emptyMetadata with publishDate := "2020-05-05" } : OGMetadata).publishDate ≠ "" ∧
    (walk (metaLeaf "datePublished" "2030-01-01")
        { emptyMetadata with publishDate := "2020-05-05" }).publishDate =
      ({ emptyMetadata with publishDate := "2020-05-05" } : OGMetadata).publishDate :=
  ⟨by decide, C5_publishDate_first_wins.1 _ _ (by decide)⟩

/-- C6: when unmarshalling fails (malformed JSON or a non-object
value), `extractDateFromJSON` leaves the record unchanged and
propagates nothing. -/
theorem C6_malformed_json_ignored :
    ∀ (s : String) (md : OGMetadata), unmarshalObject s = none →
      extractDateFromJSON s md = md := by
  intro s md h
  unfold extractDateFromJSON
  rw [h]

/-- Witness for C6 on a malformed JSON text. -/
theorem C6_witness :
    unmarshalObject "\x7bthis is not json" = none ∧
    extractDateFromJSON "\x7bthis is not json" emptyMetadata = emptyMetadata :=
  ⟨by rfl, C6_malformed_json_ignored _ emptyMetadata (by rfl)⟩

/-- C7: on a successfully parsed object, the scan over `datePublished`,
`dateCreated`, `publishedTime`, `dateModified`, `pubDate` assigns the
first string-typed value verbatim when `publishDate` is unset, and
changes nothing when it is set. -/
theorem C7_field_scan :
    ∀ (s : String) (fields : List (String × JVal)) (md : OGMetadata),
      unmarshalObject s = some fields →
      ((md.publishDate = "" →
        extractDateFromJSON s md =
          (match firstStringValue dateFields fields with
           | some v => { md with publishDate := v }
           | none => md)) ∧
       (md.publishDate ≠ "" → extractDateFromJSON s md = md)) := by
  intro s fields md hu
  constructor
  · intro h
    unfold extractDateFromJSON
    simp only [hu]
    rw [scanLoop_of_empty _ _ _ h]
    cases hv : firstStringValue dateFields fields with
    | some v => simp [hv]
    | none => simp [hv]
  · intro h
    exact extractDateFromJSON_of_ne s md h

/-- Witness for C7: a non-string `datePublished` is skipped and the
string-typed `dateCreated` is stored verbatim. -/
theorem C7_witness :
    unmarshalObject "\x7b\"datePublished\": 5, \"dateCreated\": \"Xmas\"\x7d" =
      some [("datePublished", JVal.jnum "5"), ("dateCreated", JVal.jstr "Xmas")] ∧
    emptyMetadata.publishDate = "" ∧
    extractDateFromJSON "\x7b\"datePublished\": 5, \"dateCreated\": \"Xmas\"\x7d"
        emptyMetadata =
      { emptyMetadata with publishDate := "Xmas" } := by
  refine ⟨by rfl, by rfl, ?_⟩
  have h := (C7_field_scan "\x7b\"datePublished\": 5, \"dateCreated\": \"Xmas\"\x7d"
    [("datePublished", JVal.jnum "5"), ("dateCreated", JVal.jstr "Xmas")]
    emptyMetadata (by rfl)).1 (by rfl)
  rw [h]
  rfl

/-- C9: the `@type = Article/NewsArticle` re-scan is redundant —
`extractDateFromJSON` is extensionally equal to the variant with that
conditional branch removed. -/
theorem C9_typed_rescan_redundant :
    ∀ (s : String) (md : OGMetadata),
      extractDateFromJSON s md = extractDateFromJSONNoType s md := by
  intro s md
  unfold extractDateFromJSON extractDateFromJSONNoType
  cases hu : unmarshalObject s with
  | none => rfl
  | some fields =>
    show (match scanLoop dateFields fields md with
          | some md' => md'
          | none =>
            if typeIsArticle fields then
              match scanLoop dateFields fields md with
              | some md' => md'
              | none => md
            else md) =
        (match scanLoop dateFields fields md with
         | some md' => md'
         | none => md)
    cases hs : scanLoop dateFields fields md with
    | some md' => rfl
    | none => simp

/-- C10: the five OpenGraph keys assign unconditionally, so the last
same-key meta tag in document order wins for `url`, `title`,
`description`, `image` and `source`. -/
theorem C10_last_meta_wins :
    ∀ (ns : HNodeList) (md : OGMetadata) (c : String),
      (walkList (HNodeList.append ns
        (HNodeList.cons (metaLeaf "og:url" c) HNodeList.nil)) md).url = c ∧
      (walkList (HNodeList.append ns
        (HNodeList.cons (metaLeaf "og:title" c) HNodeList.nil)) md).title = c ∧
      (walkList (HNodeList.append ns
        (HNodeList.cons (metaLeaf "og:description" c) HNodeList.nil)) md).description = c ∧
      (walkList (HNodeList.append ns
        (HNodeList.cons (metaLeaf "og:image" c) HNodeList.nil)) md).image = c ∧
      (walkList (HNodeList.append ns
        (HNodeList.cons (metaLeaf "og:site_name" c) HNodeList.nil)) md).source = c := by
  intro ns md c
  refine ⟨?_, ?_, ?_, ?_, ?_⟩ <;> (rw [walkList_append]; rfl)

/-- C8: the orchestrator is total; the slug comes from the URL alone,
the URL date extractor runs exactly when the walk left `publishDate`
unset, and the end-to-end example produces the expected record. -/
theorem C8_orchestrator :
    (∀ (url : String) (doc : HNode),
      (extractOGMetadata url doc).slug = extractSlug url ∧
      ((walk doc (initRecord url)).publishDate = "" →
        extractOGMetadata url doc =
          { walk doc (initRecord url) with publishDate := extractDateFromURL url }) ∧
      ((walk doc (initRecord url)).publishDate ≠ "" →
        extractOGMetadata url doc = walk doc (initRecord url))) ∧
    extractOGMetadata "https://a.com/p" docTitleUrl =
      { url := "https://a.com/p", title := "T", description := "", image := "",
        slug := "p", publishDate := "", source := "" } := by
  refine ⟨?_, by decide⟩
  intro url doc
  have hdef : extractOGMetadata url doc =
      if (walk doc (initRecord url)).publishDate = "" then
        { walk doc (initRecord url) with publishDate := extractDateFromURL url }
      else walk doc (initRecord url) := rfl
  refine ⟨?_, ?_, ?_⟩
  · rw [hdef]
    by_cases h : (walk doc (initRecord url)).publishDate = ""
    · rw [if_pos h]
      show (walk doc (initRecord url)).slug = extractSlug url
      rw [walk_slug]
      rfl
    · rw [if_neg h]
      rw [walk_slug]
      rfl
  · intro h
    rw [hdef, if_pos h]
  · intro h
    rw [hdef, if_neg h]

/-- Witness for C8: the end-to-end example document leaves
`publishDate` unset after the walk, so the URL extractor's (empty)
result is assigned. -/
theorem C8_witness :
    (walk docTitleUrl (initRecord "https://a.com/p")).publishDate = "" ∧
    extractOGMetadata "https://a.com/p" docTitleUrl =
      { walk docTitleUrl (initRecord "https://a.com/p") with
        publishDate := extractDateFromURL "https://a.com/p" } :=
  ⟨by decide, (C8_orchestrator.1 "https://a.com/p" docTitleUrl).2.1 (by decide)⟩

end OGX
